import Mathlib

/-!
Verification of the contact-go-server admission layer (main.go).

Times are modelled as `Int` nanoseconds (Go `time.Time`/`time.Duration` are
nanosecond-precision; `t.After(u)` is the strict comparison `u < t`).
The per-key rate-limiter record `ipRateInfo.timestamps` is a `List Int`.
-/

namespace ContactServer

/-- `maxConnections = 100` from main.go. -/
def maxConnections : Nat := 100

/-- `maxInputSize = 1024` (bytes) from main.go. -/
def maxInputSize : Nat := 1024

/-- `rateLimitWindow = 10 * time.Second` in nanoseconds. -/
def rateLimitWindow : Int := 10000000000

/-- `rateLimitMax = 5` from main.go. -/
def rateLimitMax : Nat := 5

/-- The compaction step of `rateLimiter.checkRateLimit`: Go keeps `t` when
`t.After(windowStart)` with `windowStart := now.Add(-rateLimitWindow)`,
i.e. exactly when `now - rateLimitWindow < t` (strict). -/
def validTimestamps (now : Int) (ts : List Int) : List Int :=
  ts.filter (fun t => decide (now - rateLimitWindow < t))

/-- `rateLimiter.checkRateLimit` for one Source Key: compact the record,
reject (returning the compacted record, which Go stores back) when the
retained count is `≥ rateLimitMax`, otherwise append `now` and allow.
Returns `(allowed, new record)`. -/
def checkRateLimit (now : Int) (ts : List Int) : Bool × List Int :=
  if rateLimitMax ≤ (validTimestamps now ts).length then
    (false, validTimestamps now ts)
  else
    (true, validTimestamps now ts ++ [now])

/-- A sequence of `checkRateLimit` calls against the same key, threading the
record; returns the list of per-call results and the final record. -/
def runChecks : List Int → List Int → List Bool × List Int
  | [], s => ([], s)
  | t :: rest, s =>
    ((checkRateLimit t s).1 :: (runChecks rest (checkRateLimit t s).2).1,
     (runChecks rest (checkRateLimit t s).2).2)

/-- Outcome of the dispatch decision in `main`'s accept loop. -/
inductive AcceptResult
  | session
  | rateLimited
  | busy
deriving DecidableEq

/-- `"Too many connections. Please wait and try again.\n"` from main.go. -/
def rateLimitMessage : String := "Too many connections. Please wait and try again.\n"

/-- `"Server is busy. Please try again later.\n"` from main.go. -/
def busyMessage : String := "Server is busy. Please try again later.\n"

/-- Result of the accept-loop dispatch for one inbound connection:
what happened, the message written to the client (if any), the updated
per-key rate record, and the updated semaphore occupancy. -/
structure DispatchResult where
  outcome : AcceptResult
  message : Option String
  rlState : List Int
  sem : Nat
deriving DecidableEq

/-- The dispatch sequence of `main`'s accept loop: `checkRateLimit` first
(which records `now` when it allows); on rejection write the rate-limit
message and close.  Otherwise the non-blocking semaphore send
(`select { case connSemaphore <- ... default: ... }`) succeeds exactly when
fewer than `maxConnections` slots are held; on failure write the busy
message and close. -/
def dispatch (now : Int) (ts : List Int) (sem : Nat) : DispatchResult :=
  if (checkRateLimit now ts).1 = false then
    ⟨AcceptResult.rateLimited, some rateLimitMessage, (checkRateLimit now ts).2, sem⟩
  else if sem < maxConnections then
    ⟨AcceptResult.session, none, (checkRateLimit now ts).2, sem + 1⟩
  else
    ⟨AcceptResult.busy, some busyMessage, (checkRateLimit now ts).2, sem⟩

lemma sublist_filter_of_all {l s : List Int} {p : Int → Bool}
    (h : l.Sublist s) (hall : ∀ x ∈ l, p x = true) : l.Sublist (s.filter p) := by
  have h2 := h.filter p
  rwa [List.filter_eq_self.mpr hall] at h2

lemma runChecks_append (l₁ l₂ s : List Int) :
    runChecks (l₁ ++ l₂) s =
      ((runChecks l₁ s).1 ++ (runChecks l₂ (runChecks l₁ s).2).1,
       (runChecks l₂ (runChecks l₁ s).2).2) := by
  induction l₁ generalizing s with
  | nil => simp [runChecks]
  | cons t rest ih => simp [runChecks, ih]

lemma checkRateLimit_true_state {now : Int} {s : List Int}
    (h : (checkRateLimit now s).1 = true) :
    (checkRateLimit now s).2 = validTimestamps now s ++ [now] ∧
      (validTimestamps now s).length < rateLimitMax := by
  by_cases hmax : rateLimitMax ≤ (validTimestamps now s).length
  · simp [checkRateLimit, hmax] at h
  · exact ⟨by simp [checkRateLimit, hmax], Nat.lt_of_not_le hmax⟩

/-- If every call in `ts` is allowed, the call times accumulate (as a
sublist, on top of any surviving sublist `l` of the starting record) in the
final record. -/
lemma runChecks_true_sublist (ts : List Int) : ∀ (s l : List Int),
    l.Sublist s →
    (∀ a ∈ l, ∀ b ∈ ts, b - rateLimitWindow < a) →
    (∀ a ∈ ts, ∀ b ∈ ts, a - b < rateLimitWindow) →
    (∀ r ∈ (runChecks ts s).1, r = true) →
    (l ++ ts).Sublist (runChecks ts s).2 := by
  induction ts with
  | nil =>
    intro s l hls _ _ _
    simpa using hls
  | cons t rest ih =>
    intro s l hls hl hpair hall
    have htrue : (checkRateLimit t s).1 = true := by
      apply hall
      simp [runChecks]
    obtain ⟨hstate, _⟩ := checkRateLimit_true_state htrue
    have hlv : l.Sublist (validTimestamps t s) := by
      apply sublist_filter_of_all hls
      intro x hx
      have := hl x hx t (by simp)
      simpa using this
    have hlt : (l ++ [t]).Sublist ((checkRateLimit t s).2) := by
      rw [hstate]
      exact hlv.append (List.Sublist.refl [t])
    have hrec := ih ((checkRateLimit t s).2) (l ++ [t]) hlt
      (by
        intro a ha b hb
        rcases List.mem_append.mp ha with ha' | ha'
        · exact hl a ha' b (List.mem_cons_of_mem _ hb)
        · have hat : a = t := by simpa using ha'
          subst hat
          have := hpair b (List.mem_cons_of_mem _ hb) a (List.mem_cons_self _ _)
          omega)
      (by
        intro a ha b hb
        exact hpair a (List.mem_cons_of_mem _ ha) b (List.mem_cons_of_mem _ hb))
      (by
        intro r hr
        apply hall
        simp only [runChecks]
        exact List.mem_cons_of_mem _ hr)
    have hshape : (runChecks (t :: rest) s).2 = (runChecks rest (checkRateLimit t s).2).2 := by
      simp [runChecks]
    rw [hshape]
    have : l ++ t :: rest = (l ++ [t]) ++ rest := by simp
    rw [this]
    exact hrec

/-- C1: within any span shorter than the window, at most `rateLimitMax`
calls can be allowed, so a run of `rateLimitMax + 1` or more calls contains
a rejection; a rejected check makes the dispatcher write the rate-limit
message and close. -/
theorem rateLimit_enforced_within_window (ts s : List Int)
    (hspan : ∀ a ∈ ts, ∀ b ∈ ts, a - b < rateLimitWindow)
    (hlen : rateLimitMax + 1 ≤ ts.length) :
    false ∈ (runChecks ts s).1 ∧
    (∀ now ts0 sem, (checkRateLimit now ts0).1 = false →
      (dispatch now ts0 sem).message = some rateLimitMessage ∧
      (dispatch now ts0 sem).outcome = AcceptResult.rateLimited) := by
  constructor
  · by_contra hfalse
    have hall : ∀ r ∈ (runChecks ts s).1, r = true := by
      intro r hr
      cases r with
      | false => exact absurd hr hfalse
      | true => rfl
    have hne : ts ≠ [] := by
      intro h
      rw [h] at hlen
      simp [rateLimitMax] at hlen
    set tf := ts.getLast hne with htf
    have hsplit : ts.dropLast ++ [tf] = ts := List.dropLast_append_getLast hne
    have htfmem : tf ∈ ts := List.getLast_mem hne
    have hmidsub : (ts.dropLast).Sublist (runChecks ts.dropLast s).2 := by
      have := runChecks_true_sublist ts.dropLast s [] (List.nil_sublist s)
        (by intro a ha; exact absurd ha (List.not_mem_nil a))
        (by
          intro a ha b hb
          exact hspan a (List.dropLast_sublist ts |>.subset ha)
            b (List.dropLast_sublist ts |>.subset hb))
        (by
          intro r hr
          apply hall
          have := runChecks_append ts.dropLast [tf] s
          rw [← hsplit, this]
          exact List.mem_append_left _ hr)
      simpa using this
    have hlast_true : (checkRateLimit tf (runChecks ts.dropLast s).2).1 = true := by
      apply hall
      have := runChecks_append ts.dropLast [tf] s
      rw [← hsplit, this]
      apply List.mem_append_right
      simp [runChecks]
    obtain ⟨_, hlt⟩ := checkRateLimit_true_state hlast_true
    have hsubv : (ts.dropLast).Sublist
        (validTimestamps tf (runChecks ts.dropLast s).2) := by
      apply sublist_filter_of_all hmidsub
      intro x hx
      have hxts : x ∈ ts := List.dropLast_sublist ts |>.subset hx
      have := hspan tf htfmem x hxts
      simp only [decide_eq_true_eq]
      omega
    have hlen2 := hsubv.length_le
    rw [List.length_dropLast] at hlen2
    omega
  · intro now ts0 sem h
    constructor
    · simp [dispatch, h]
    · simp [dispatch, h]

/-- Witness for C1: six calls at the same instant from one key starting
from an empty record; the sixth is rejected, and a rejected check yields
the rate-limit message. -/
theorem rateLimit_enforced_within_window_witness :
    false ∈ (runChecks [0, 0, 0, 0, 0, 0] []).1 ∧
    (dispatch 0 [0, 0, 0, 0, 0] 3).message = some rateLimitMessage :=
  ⟨(rateLimit_enforced_within_window [0, 0, 0, 0, 0, 0] []
      (by decide) (by decide)).1,
   ((rateLimit_enforced_within_window [0, 0, 0, 0, 0, 0] []
      (by decide) (by decide)).2 0 [0, 0, 0, 0, 0] 3 (by decide)).1⟩

lemma runChecks_spaced_aux (ts : List Int) : ∀ prev : Int,
    List.Chain (fun a b => rateLimitWindow < b - a) prev ts →
    (runChecks ts [prev]).1 = List.replicate ts.length true := by
  induction ts with
  | nil =>
    intro prev _
    simp [runChecks]
  | cons t rest ih =>
    intro prev hchain
    rw [List.chain_cons] at hchain
    obtain ⟨hgap, hchain2⟩ := hchain
    have hvalid : validTimestamps t [prev] = [] := by
      simp only [validTimestamps, List.filter, decide_eq_true_eq]
      have : ¬(t - rateLimitWindow < prev) := by omega
      simp [this]
    have hc : checkRateLimit t [prev] = (true, [t]) := by
      simp [checkRateLimit, hvalid, rateLimitMax]
    simp [runChecks, hc, ih t hchain2, List.replicate_succ]

/-- C7: starting from a fresh (empty) record, attempts whose consecutive
gaps all exceed `rateLimitWindow` are all allowed: compaction removes every
earlier timestamp before the count is compared to `rateLimitMax`. -/
theorem spaced_attempts_always_allowed (ts : List Int)
    (hgap : List.Chain' (fun a b => rateLimitWindow < b - a) ts) :
    (runChecks ts []).1 = List.replicate ts.length true := by
  cases ts with
  | nil => simp [runChecks]
  | cons t rest =>
    have hc : checkRateLimit t [] = (true, [t]) := by
      simp [checkRateLimit, validTimestamps, rateLimitMax]
    have hchain : List.Chain (fun a b => rateLimitWindow < b - a) t rest := hgap
    simp [runChecks, hc, runChecks_spaced_aux rest t hchain, List.replicate_succ]

/-- Witness for C7: two attempts 20 seconds apart are both allowed. -/
theorem spaced_attempts_always_allowed_witness :
    (runChecks [0, 20000000000] []).1 = List.replicate 2 true :=
  spaced_attempts_always_allowed [0, 20000000000]
    (by
      rw [List.chain'_cons]
      exact ⟨by decide, List.chain'_singleton _⟩)

/-- Counterexample for C5: with `now = rateLimitWindow` the window start is
`0`; the recorded timestamp `0` lies exactly on the boundary, yet
compaction discards it (the retained list is empty, and a check at `now`
allows and stores only `now`), so the boundary is NOT treated as inside
the window. -/
theorem boundary_timestamp_dropped :
    validTimestamps rateLimitWindow [0] = [] ∧
    checkRateLimit rateLimitWindow [0] = (true, [rateLimitWindow]) := by
  constructor <;> rfl

/-- C5 (amended): a timestamp exactly equal to the window start
`now - rateLimitWindow` is treated as OUTSIDE the window and discarded by
compaction (the boundary is exclusive, since Go keeps only
`t.After(windowStart)`); an attempt is rejected exactly when the retained
count is `≥ rateLimitMax`, not only when it exceeds it. -/
theorem rate_boundary_exclusive (now : Int) (ts : List Int) :
    (now - rateLimitWindow) ∉ validTimestamps now ts ∧
    ((checkRateLimit now ts).1 = false ↔
      rateLimitMax ≤ (validTimestamps now ts).length) := by
  constructor
  · intro hmem
    have := List.of_mem_filter hmem
    simp at this
  · by_cases hmax : rateLimitMax ≤ (validTimestamps now ts).length
    · simp [checkRateLimit, hmax]
    · simp [checkRateLimit, hmax]

/-- C9: when the dispatcher rejects a connection for capacity (busy), the
rate-limit check has already run and recorded the attempt timestamp, so
the attempt still counts against the Source Key inside any later window
containing it. -/
theorem busy_rejection_recorded (now : Int) (ts : List Int) (sem : Nat)
    (h : (dispatch now ts sem).outcome = AcceptResult.busy) :
    now ∈ (dispatch now ts sem).rlState ∧
    (∀ now2 : Int, now2 - rateLimitWindow < now →
      now ∈ validTimestamps now2 (dispatch now ts sem).rlState) := by
  have hrl : (checkRateLimit now ts).1 = true := by
    by_cases hc : (checkRateLimit now ts).1 = false
    · simp [dispatch, hc] at h
    · exact eq_true_of_ne_false hc
  have hstate : (dispatch now ts sem).rlState = validTimestamps now ts ++ [now] := by
    obtain ⟨hs, _⟩ := checkRateLimit_true_state hrl
    by_cases hsem : sem < maxConnections
    · simp [dispatch, hrl, hsem] at h
    · simp [dispatch, hrl, hsem, hs]
  constructor
  · rw [hstate]
    exact List.mem_append_right _ (List.mem_singleton_self now)
  · intro now2 hlt
    rw [hstate]
    apply List.mem_filter.mpr
    refine ⟨List.mem_append_right _ (List.mem_singleton_self now), ?_⟩
    simpa using hlt

/-- Witness for C9: a busy rejection at time 0 with a full semaphore; the
attempt is stored and visible to a check 5 seconds later. -/
theorem busy_rejection_recorded_witness :
    (0 : Int) ∈ (dispatch 0 [] 100).rlState ∧
    (0 : Int) ∈ validTimestamps 5000000000 (dispatch 0 [] 100).rlState :=
  ⟨(busy_rejection_recorded 0 [] 100 (by decide)).1,
   (busy_rejection_recorded 0 [] 100 (by decide)).2 5000000000 (by decide)⟩

/-- Events seen by the semaphore `connSemaphore` (capacity
`maxConnections`): an inbound connection that passed / failed the rate
check, or a session finishing and releasing its slot (`<-connSemaphore`).
A `finish` in the real program only ever happens for a session holding a
slot, so the occupancy is positive there; truncated subtraction can only
lower the modelled occupancy further and cannot mask a cap violation. -/
inductive ServerEvent
  | arrive (rateAllowed : Bool)
  | finish
deriving DecidableEq

/-- One accept-loop step acting on the semaphore occupancy: a rate-allowed
arrival takes a slot exactly when one is free (the non-blocking
`select ... default` send), a rate-limited arrival is turned away before
the semaphore, and a finishing session releases its slot. -/
def stepSem (sem : Nat) : ServerEvent → Nat
  | ServerEvent.arrive true => if sem < maxConnections then sem + 1 else sem
  | ServerEvent.arrive false => sem
  | ServerEvent.finish => sem - 1

/-- Semaphore occupancy after a trace of events, starting from an idle
server. Every session holds a slot for its whole lifetime, so the number
of concurrently active sessions is bounded by this occupancy. -/
def semAfter (evs : List ServerEvent) : Nat := evs.foldl stepSem 0

lemma foldl_stepSem_le (evs : List ServerEvent) :
    ∀ sem, sem ≤ maxConnections → evs.foldl stepSem sem ≤ maxConnections := by
  induction evs with
  | nil => intro sem h; simpa using h
  | cons e rest ih =>
    intro sem h
    apply ih
    cases e with
    | arrive allowed =>
      cases allowed with
      | true =>
        simp only [stepSem]
        split
        · omega
        · exact h
      | false => exact h
    | finish =>
      simp only [stepSem]
      omega
/-- C2: under any trace of arrivals and session completions the semaphore
occupancy — an upper bound on the number of concurrently active sessions —
never exceeds `maxConnections`; and when all `maxConnections` slots are
held, the next arrival that passes the rate limiter gets the busy message,
takes no slot and starts no session (the connection is closed). -/
theorem max_connections_cap (evs : List ServerEvent) (now : Int) (ts : List Int)
    (hrate : (checkRateLimit now ts).1 = true) :
    semAfter evs ≤ maxConnections ∧
    (semAfter evs = maxConnections →
      (dispatch now ts (semAfter evs)).outcome = AcceptResult.busy ∧
      (dispatch now ts (semAfter evs)).message = some busyMessage ∧
      (dispatch now ts (semAfter evs)).sem = semAfter evs) := by
  constructor
  · exact foldl_stepSem_le evs 0 (by simp [maxConnections])
  · intro hfull
    have hnotlt : ¬ semAfter evs < maxConnections := by omega
    have hne : ¬ (checkRateLimit now ts).1 = false := by simp [hrate]
    refine ⟨?_, ?_, ?_⟩ <;> simp [dispatch, hne, hnotlt]

set_option maxRecDepth 4000 in
/-- Witness for C2: one hundred rate-allowed arrivals fill the server; the
occupancy is exactly `maxConnections` and the next allowed arrival at time
0 with a fresh rate record is turned away busy. -/
theorem max_connections_cap_witness :
    semAfter (List.replicate 100 (ServerEvent.arrive true)) ≤ maxConnections ∧
    (dispatch 0 [] (semAfter (List.replicate 100 (ServerEvent.arrive true)))).outcome =
      AcceptResult.busy :=
  ⟨(max_connections_cap (List.replicate 100 (ServerEvent.arrive true)) 0 [] (by decide)).1,
   ((max_connections_cap (List.replicate 100 (ServerEvent.arrive true)) 0 [] (by decide)).2
      (by decide)).1⟩

/-- External events seen by `main`'s accept loop.  `signal` models the
shutdown goroutine running `listener.Close(); cancel()` after a
termination signal; `conn` models `Accept` returning a connection (only
possible while the listener is open — after `Close` the pending and all
subsequent `Accept` calls fail, which the loop maps to the `ctx.Done`
branch); `acceptErr` models a transient `Accept` error. -/
inductive NetEvent
  | signal
  | conn (rateAllowed : Bool)
  | acceptErr
deriving DecidableEq

/-- State of the accept loop: whether the shutdown signal has been handled
(listener closed, context cancelled), the semaphore occupancy, how many
sessions were ever started, and whether the loop has returned. -/
structure LoopState where
  done : Bool
  sem : Nat
  started : Nat
  exited : Bool
deriving DecidableEq

/-- One iteration of `main`'s accept loop against an external event.  After
the signal, `Accept` fails and the loop takes the `ctx.Done()` branch:
it drains and returns, never dispatching another connection. -/
def loopStep (st : LoopState) (e : NetEvent) : LoopState :=
  if st.exited then st
  else
    match e with
    | NetEvent.signal => { st with done := true }
    | NetEvent.conn rateOk =>
      if st.done then { st with exited := true }
      else if rateOk then
        (if st.sem < maxConnections then
          { st with sem := st.sem + 1, started := st.started + 1 }
        else st)
      else st
    | NetEvent.acceptErr =>
      if st.done then { st with exited := true } else st

/-- Run the accept loop from server start over a schedule of events. -/
def runLoop (evs : List NetEvent) : LoopState :=
  evs.foldl loopStep ⟨false, 0, 0, false⟩

/-- The shutdown drain loop
`for i := 0; i < 100; i++ { if activeConns == 0 break; sleep 100ms }`,
counting the 100 ms sleeps actually performed; `obs i` is the value of
`activeConns` read at iteration `i`. -/
def drainGo (obs : Nat → Nat) : Nat → Nat → Nat
  | _, 0 => 0
  | i, fuel + 1 => if obs i = 0 then 0 else drainGo obs (i + 1) fuel + 1

/-- Number of 100 ms waits the drain performs (at most 100, i.e. ~10 s). -/
def drainPolls (obs : Nat → Nat) : Nat := drainGo obs 0 100

lemma drainGo_le_fuel (obs : Nat → Nat) : ∀ fuel i, drainGo obs i fuel ≤ fuel := by
  intro fuel
  induction fuel with
  | zero => intro i; simp [drainGo]
  | succ n ih =>
    intro i
    simp only [drainGo]
    split
    · omega
    · have := ih (i + 1)
      omega

lemma drainGo_le_of_zero (obs : Nat → Nat) :
    ∀ fuel i k, obs (i + k) = 0 → drainGo obs i fuel ≤ k := by
  intro fuel
  induction fuel with
  | zero => intro i k _; simp [drainGo]
  | succ n ih =>
    intro i k hk
    simp only [drainGo]
    split
    · omega
    · rename_i hne
      cases k with
      | zero =>
        simp at hk
        exact absurd hk hne
      | succ k2 =>
        have := ih (i + 1) k2 (by
          have : i + 1 + k2 = i + (k2 + 1) := by omega
          rwa [this])
        omega

lemma loopStep_frozen {st : LoopState} (h : st.done = true ∨ st.exited = true)
    (e : NetEvent) :
    (loopStep st e).started = st.started ∧
      ((loopStep st e).done = true ∨ (loopStep st e).exited = true) := by
  by_cases hex : st.exited = true
  · simp [loopStep, hex]
  · have hdone : st.done = true := by
      rcases h with h | h
      · exact h
      · exact absurd h hex
    cases e with
    | signal => simp [loopStep, hex, hdone]
    | conn rateOk => simp [loopStep, hex, hdone]
    | acceptErr => simp [loopStep, hex, hdone]

lemma foldl_loopStep_frozen (evs : List NetEvent) :
    ∀ st : LoopState, st.done = true ∨ st.exited = true →
      (evs.foldl loopStep st).started = st.started := by
  induction evs with
  | nil => intro st _; rfl
  | cons e rest ih =>
    intro st h
    obtain ⟨h1, h2⟩ := loopStep_frozen h e
    rw [List.foldl_cons, ih (loopStep st e) h2, h1]

/-- C8: once the shutdown signal is handled (listener closed), no further
event ever starts a session — the session count after any continuation
equals the count at the signal; and the drain loop sleeps at most 100
times (100 × 100 ms ≈ 10 s) and stops as soon as it observes an active
count of zero, abandoning sessions still running at the bound. -/
theorem graceful_shutdown_bounded (pre post : List NetEvent) (obs : Nat → Nat)
    (k : Nat) (hk : obs k = 0) :
    (runLoop (pre ++ NetEvent.signal :: post)).started =
      (runLoop (pre ++ [NetEvent.signal])).started ∧
    drainPolls obs ≤ 100 ∧
    drainPolls obs ≤ k := by
  refine ⟨?_, drainGo_le_fuel obs 100 0, drainGo_le_of_zero obs 100 0 k (by simpa using hk)⟩
  have hshape : pre ++ NetEvent.signal :: post = (pre ++ [NetEvent.signal]) ++ post := by
    simp
  rw [hshape]
  unfold runLoop
  rw [List.foldl_append]
  apply foldl_loopStep_frozen
  set st := List.foldl loopStep ⟨false, 0, 0, false⟩ (pre ++ [NetEvent.signal]) with hst
  have : st = loopStep (List.foldl loopStep ⟨false, 0, 0, false⟩ pre) NetEvent.signal := by
    rw [hst, List.foldl_append]
    rfl
  rw [this]
  by_cases hex : (List.foldl loopStep ⟨false, 0, 0, false⟩ pre).exited = true
  · right
    simp [loopStep, hex]
  · left
    simp [loopStep, hex]

/-- A constant observation of zero active sessions. -/
def zeroObs : Nat → Nat := fun _ => 0

/-- Witness for C8: a session is started, the signal arrives, two more
connection attempts follow; the started count stays at its value from the
signal, and with no active sessions the drain performs zero sleeps. -/
theorem graceful_shutdown_bounded_witness :
    (runLoop ([NetEvent.conn true] ++ NetEvent.signal ::
        [NetEvent.conn true, NetEvent.conn true])).started =
      (runLoop ([NetEvent.conn true] ++ [NetEvent.signal])).started ∧
    drainPolls zeroObs ≤ 100 ∧
    drainPolls zeroObs ≤ 0 :=
  graceful_shutdown_bounded [NetEvent.conn true]
    [NetEvent.conn true, NetEvent.conn true] zeroObs 0 rfl

/-- One entry of the static `contacts` table in main.go. -/
structure Contact where
  num : Nat
  name : String
  url : String
deriving DecidableEq

/-- The `contacts` slice from main.go, in order. -/
def contacts : List Contact :=
  [⟨1, "Twitter/X", "x.com/hitto_kun"⟩,
   ⟨2, "GitHub", "github.com/hitto-hub"⟩,
   ⟨3, "Zenn", "zenn.dev/hitto"⟩,
   ⟨4, "Qiita", "qiita.com/hitto"⟩,
   ⟨5, "Blog", "hitto-kun.hatenablog.com"⟩]

/-- Placeholder used with `List.getD`; every access is guarded by the
range check `1 <= num && num <= len(contacts)` as in main.go. -/
def noContact : Contact := ⟨0, "", ""⟩

/-- The `banner` raw-string constant from main.go. -/
def banner : String :=
  "\n _     _ _   _\n| |__ (_) |_| |_ ___\n| \x27_ \\| | __| __/ _ \\\n| | | | | |_| || (_) |\n|_| |_|_|\\__|\\__\\___/\n\n━━━━━━━━━━━━━━━━━━━━━━━━━━━━━━━━━━━━━━\n  Welcome to hitto\x27s contact server\n━━━━━━━━━━━━━━━━━━━━━━━━━━━━━━━━━━━━━━\n\n  Available endpoints:\n\n"

/-- The separator written after the menu. -/
def separatorMsg : String := "\n━━━━━━━━━━━━━━━━━━━━━━━━━━━━━━━━━━━━━━\n\n"

/-- `"> Select [1-5] or 'q' to quit: "`. -/
def promptMsg : String := "> Select [1-5] or \x27q\x27 to quit: "

/-- `"Invalid input. Select [1-5] or 'q' to quit: "` — the invalid-input
reply already re-prompts. -/
def invalidMsg : String := "Invalid input. Select [1-5] or \x27q\x27 to quit: "

/-- `"\nConnection closed. See you! 👋\n"`. -/
def farewellMsg : String := "\nConnection closed. See you! 👋\n"

/-- `"\nInput too large. Connection closed.\n"`. -/
def tooLargeMsg : String := "\nInput too large. Connection closed.\n"

/-- `fmt.Fprintf(conn, "\n→ Opening %s: https://%s\n\n", c.Name, c.URL)`. -/
def openingMsg (c : Contact) : String :=
  "\n→ Opening " ++ c.name ++ ": https://" ++ c.url ++ "\n\n"

/-- `%-10s`: left-justify in a field of width 10 (no truncation). -/
def padRight (s : String) (n : Nat) : String :=
  s ++ String.mk (List.replicate (n - s.length) ' ')

/-- `fmt.Fprintf(conn, "  [%d] %-10s → %s\n", c.Num, c.Name, c.URL)`. -/
def menuLine (c : Contact) : String :=
  "  [" ++ toString c.num ++ "] " ++ padRight c.name 10 ++ " → " ++ c.url ++ "\n"

/-- `unicode.IsSpace` restricted to the ASCII whitespace characters, which
is what the Fscan family skips before a `%d` verb (inputs beyond ASCII
whitespace are out of scope for the properties below). -/
def isGoSpace (c : Char) : Bool :=
  c == ' ' || c == '\t' || c == '\n' || c == '\x0B' || c == '\x0C' || c == '\r'

/-- Value of a string of decimal digits, most significant first. -/
def digitsVal (ds : List Char) : Nat :=
  ds.foldl (fun a c => a * 10 + (c.toNat - 48)) 0

/-- Scan a maximal run of leading decimal digits; fail when there is none.
Any characters after the digit run are simply left unconsumed, as the Go
scanner does. -/
def readDigits (cs : List Char) : Option Nat :=
  if (cs.takeWhile Char.isDigit) = [] then none
  else some (digitsVal (cs.takeWhile Char.isDigit))

def sscanfDAux : List Char → Option Int
  | [] => none
  | c :: cs =>
    if c = '-' then (readDigits cs).map (fun n => -(Int.ofNat n))
    else if c = '+' then (readDigits cs).map Int.ofNat
    else (readDigits (c :: cs)).map Int.ofNat

/-- `fmt.Sscanf(input, "%d", &num)` as used in `handleConnection`: skip
leading whitespace, read an optional sign and then a maximal nonempty
digit run; trailing non-digit input does not cause an error.  (Go parses
into `int` and errors on overflow; every overflowing value is outside
`[1, len(contacts)]`, so the session behaviour is identical and the
unbounded `Int` is faithful for the menu logic.) -/
def sscanfD (s : String) : Option Int :=
  sscanfDAux (s.data.dropWhile isGoSpace)

/-- Outcome of one `scanner.Scan()` call inside the session loop, as the
loop distinguishes them: a line was read; `Scan` failed with
`bufio.ErrTooLong` (oversized input); or `Scan` failed any other way —
clean EOF, peer reset, or an expired read deadline — which the code
treats silently. -/
inductive ReadResult
  | line (s : String)
  | tooLong
  | disconnect
deriving DecidableEq

/-- Why the session loop returned. -/
inductive ExitCause
  | quit
  | oversize
  | disconnect
deriving DecidableEq

/-- The `for { scanner.Scan() ... }` loop of `handleConnection`: returns
the messages written inside the loop, in order, and the exit cause.
An exhausted script is a read failure (the rolling read deadline always
eventually fires), handled silently like any non-`ErrTooLong` error. -/
def sessionLoop : List ReadResult → List String × ExitCause
  | [] => ([], ExitCause.disconnect)
  | ReadResult.disconnect :: _ => ([], ExitCause.disconnect)
  | ReadResult.tooLong :: _ => ([tooLargeMsg], ExitCause.oversize)
  | ReadResult.line s :: rest =>
    if s = "q" ∨ s = "quit" ∨ s = "exit" then ([farewellMsg], ExitCause.quit)
    else
      match sscanfD s with
      | some n =>
        if 1 ≤ n ∧ n ≤ (contacts.length : Int) then
          (openingMsg (contacts.getD (n - 1).toNat noContact) :: promptMsg ::
            (sessionLoop rest).1, (sessionLoop rest).2)
        else (invalidMsg :: (sessionLoop rest).1, (sessionLoop rest).2)
      | none => (invalidMsg :: (sessionLoop rest).1, (sessionLoop rest).2)

/-- Observable actions of `handleConnection`: writing to the connection,
closing it, releasing the admission slot (`<-connSemaphore`), and
decrementing the active-connection counter. -/
inductive ConnEvent
  | send (msg : String)
  | close
  | release
  | decActive
deriving DecidableEq

/-- `handleConnection`: the deferred block runs on every exit path, after
the banner, menu, separator and first prompt are written and the input
loop finishes; it closes the connection, releases the semaphore slot and
decrements `activeConns`, in that order. -/
def handleConnection (reads : List ReadResult) : List ConnEvent :=
  ConnEvent.send banner :: (contacts.map (fun c => ConnEvent.send (menuLine c))) ++
    (ConnEvent.send separatorMsg :: ConnEvent.send promptMsg ::
      ((sessionLoop reads).1.map ConnEvent.send)) ++
    [ConnEvent.close, ConnEvent.release, ConnEvent.decActive]

/-- Terminator of the input stream: orderly EOF from the peer, or a failed
read (expired deadline, reset). -/
inductive StreamEnd
  | eof
  | readErr
deriving DecidableEq

/-- Result of one `scanner.Scan()` over bytes: a full token plus the
unconsumed stream; failure with `ErrTooLong`; or a silent failure /
clean end of input. -/
inductive ScanOutcome
  | token (t : List Nat) (rest : List Nat)
  | tooLong
  | done
deriving DecidableEq

/-- `dropCR` from `bufio.ScanLines`: strip one trailing `'\r'` (13). -/
def dropCR (l : List Nat) : List Nat :=
  if l.getLast? = some 13 then l.dropLast else l

/-- One `scanner.Scan()` with `bufio.ScanLines` and
`scanner.Buffer(make([]byte, maxInputSize), maxInputSize)`, over the
remaining stream bytes.  The buffer holds at most `maxInputSize` bytes, so
a token is produced only when the terminating newline (10) occurs within
the first `maxInputSize` bytes; once the buffer fills without a newline,
`Scan` fails with `ErrTooLong` (`len(s.buf) >= s.maxTokenSize`).  With no
newline and a stream shorter than the buffer, an orderly EOF (reported by
the transport on a read after the data, as TCP does) yields the remaining
bytes as a final token, and any other read failure is silent. -/
def scanToken (data : List Nat) (term : StreamEnd) : ScanOutcome :=
  if (data.takeWhile (fun x => x != 10)).length < data.length then
    if (data.takeWhile (fun x => x != 10)).length < maxInputSize then
      ScanOutcome.token (dropCR (data.takeWhile (fun x => x != 10)))
        (data.drop ((data.takeWhile (fun x => x != 10)).length + 1))
    else ScanOutcome.tooLong
  else if maxInputSize ≤ data.length then ScanOutcome.tooLong
  else
    match term with
    | StreamEnd.eof =>
      if data.isEmpty then ScanOutcome.done
      else ScanOutcome.token (dropCR data) []
    | StreamEnd.readErr => ScanOutcome.done

lemma takeWhile_append_all {α : Type} {p : α → Bool} :
    ∀ (l rest : List α), (∀ x ∈ l, p x = true) →
      (l ++ rest).takeWhile p = l ++ rest.takeWhile p := by
  intro l
  induction l with
  | nil => intro rest _; simp
  | cons x xs ih =>
    intro rest h
    have hx : p x = true := h x (by simp)
    simp [List.takeWhile_cons, hx, ih rest (fun y hy => h y (by simp [hy]))]

lemma dropWhile_append_all {α : Type} {p : α → Bool} :
    ∀ (l rest : List α), (∀ x ∈ l, p x = true) →
      (l ++ rest).dropWhile p = rest.dropWhile p := by
  intro l
  induction l with
  | nil => intro rest _; simp
  | cons x xs ih =>
    intro rest h
    have hx : p x = true := h x (by simp)
    simp [List.dropWhile_cons, hx, ih rest (fun y hy => h y (by simp [hy]))]

lemma drop_append_cons {α : Type} :
    ∀ (b : List α) (c : α) (rest : List α),
      (b ++ c :: rest).drop (b.length + 1) = rest := by
  intro b
  induction b with
  | nil => intro c rest; simp
  | cons x xs ih => intro c rest; simp [ih c rest]

lemma count_map_send_eq_zero (msgs : List String) (e : ConnEvent)
    (he : ∀ m, ConnEvent.send m ≠ e) :
    (msgs.map ConnEvent.send).count e = 0 := by
  rw [List.count_eq_zero]
  intro hmem
  obtain ⟨m, _, hm⟩ := List.mem_map.mp hmem
  exact he m hm

/-- C3: whatever the session's input script — normal quit, oversized
input, silent disconnect (deadline expiry, reset, EOF), or any mix — the
trace of `handleConnection` contains exactly one slot release and exactly
one active-count decrement: the deferred block runs once on every exit
path and nothing else touches the slot. -/
theorem slot_released_exactly_once (reads : List ReadResult) :
    (handleConnection reads).count ConnEvent.release = 1 ∧
    (handleConnection reads).count ConnEvent.decActive = 1 := by
  have h1 := count_map_send_eq_zero (sessionLoop reads).1 ConnEvent.release
    (fun m h => ConnEvent.noConfusion h)
  have h2 := count_map_send_eq_zero (sessionLoop reads).1 ConnEvent.decActive
    (fun m h => ConnEvent.noConfusion h)
  have h3 : (contacts.map (fun c => ConnEvent.send (menuLine c))).count
      ConnEvent.release = 0 := by
    rw [List.count_eq_zero]
    intro hmem
    obtain ⟨m, _, hm⟩ := List.mem_map.mp hmem
    exact ConnEvent.noConfusion hm
  have h4 : (contacts.map (fun c => ConnEvent.send (menuLine c))).count
      ConnEvent.decActive = 0 := by
    rw [List.count_eq_zero]
    intro hmem
    obtain ⟨m, _, hm⟩ := List.mem_map.mp hmem
    exact ConnEvent.noConfusion hm
  constructor <;>
    simp [handleConnection, List.count_cons, List.count_append, h1, h2, h3, h4,
      List.count_singleton]

/-- Counterexample for C4: a newline-terminated line of exactly
`maxInputSize` bytes is NOT accepted: the scanner's buffer (capacity and
max token size both `maxInputSize`) fills before the terminating newline
is seen, `Scan` fails with `ErrTooLong`, and the session sends
"Input too large. Connection closed." and terminates instead of
processing the line. -/
theorem maxInputSize_line_rejected :
    scanToken (List.replicate maxInputSize 120 ++ [10]) StreamEnd.eof =
      ScanOutcome.tooLong ∧
    sessionLoop [ReadResult.tooLong] = ([tooLargeMsg], ExitCause.oversize) := by
  constructor
  · have htake : ((List.replicate maxInputSize 120 ++ [10]).takeWhile
        (fun x => x != 10)) = List.replicate maxInputSize 120 := by
      rw [takeWhile_append_all]
      · simp [List.takeWhile_cons]
      · intro x hx
        have := List.eq_of_mem_replicate hx
        simp [this]
    unfold scanToken
    rw [htake]
    simp
  · rfl

/-- C4 (amended): with newline-terminated input, a line of at most
`maxInputSize - 1` bytes (newline not counted) is accepted and tokenised,
while a line of `maxInputSize` bytes or more is rejected: the session
sends "Input too large. Connection closed." and terminates.  Every other
read failure (clean EOF, deadline expiry, reset) terminates the session
silently, with no message. -/
theorem input_size_boundary (b rest : List Nat) (term : StreamEnd)
    (hb : ∀ x ∈ b, x ≠ 10) :
    (b.length < maxInputSize →
      scanToken (b ++ 10 :: rest) term = ScanOutcome.token (dropCR b) rest) ∧
    (maxInputSize ≤ b.length →
      scanToken (b ++ 10 :: rest) term = ScanOutcome.tooLong) ∧
    (∀ rs, sessionLoop (ReadResult.tooLong :: rs) =
      ([tooLargeMsg], ExitCause.oversize)) ∧
    (∀ rs, (sessionLoop (ReadResult.disconnect :: rs)).1 = []) := by
  have hb2 : ∀ x ∈ b, (x != 10) = true := by
    intro x hx
    have := hb x hx
    simp [this]
  have htake : ((b ++ 10 :: rest).takeWhile (fun x => x != 10)) = b := by
    rw [takeWhile_append_all b (10 :: rest) hb2]
    simp [List.takeWhile_cons]
  have hc1 : b.length < (b ++ 10 :: rest).length := by
    rw [List.length_append, List.length_cons]
    omega
  refine ⟨?_, ?_, fun rs => rfl, fun rs => rfl⟩
  · intro hlt
    unfold scanToken
    rw [htake]
    simp [hc1, hlt, drop_append_cons]
  · intro hge
    have hnlt : ¬ b.length < maxInputSize := by omega
    unfold scanToken
    rw [htake]
    simp [hc1, hnlt]

/-- Witness for C4's amended boundary: a one-byte line is tokenised with
the byte after the newline left in the stream, and an oversized read
produces exactly the too-large message. -/
theorem input_size_boundary_witness :
    scanToken ([120] ++ 10 :: [121]) StreamEnd.eof =
      ScanOutcome.token (dropCR [120]) [121] ∧
    sessionLoop [ReadResult.tooLong] = ([tooLargeMsg], ExitCause.oversize) :=
  ⟨(input_size_boundary [120] [121] StreamEnd.eof (by decide)).1 (by decide),
   (input_size_boundary [120] [121] StreamEnd.eof (by decide)).2.2.1 []⟩

/-- C6: the session loop's reply to each input line — an exact,
case-sensitive `"q"`, `"quit"` or `"exit"` gets the farewell and closes;
a line whose scan yields an integer in `[1, len(contacts)]` gets that
contact's resolved URL and a fresh prompt; every other line (including
out-of-range numbers and the capitalised `"Q"`) gets the invalid-input
re-prompt.  Literally: `"3"` yields the Zenn URL, `"0"` and `"99"` are
invalid. -/
theorem session_command_semantics :
    (∀ (s : String) (rest : List ReadResult), (s = "q" ∨ s = "quit" ∨ s = "exit") →
      sessionLoop (ReadResult.line s :: rest) = ([farewellMsg], ExitCause.quit)) ∧
    (∀ (s : String) (n : Int) (rest : List ReadResult),
      sscanfD s = some n → 1 ≤ n → n ≤ (contacts.length : Int) →
      sessionLoop (ReadResult.line s :: rest) =
        (openingMsg (contacts.getD (n - 1).toNat noContact) :: promptMsg ::
          (sessionLoop rest).1, (sessionLoop rest).2)) ∧
    (∀ (s : String) (rest : List ReadResult),
      s ≠ "q" → s ≠ "quit" → s ≠ "exit" →
      (∀ n : Int, sscanfD s = some n → ¬(1 ≤ n ∧ n ≤ (contacts.length : Int))) →
      sessionLoop (ReadResult.line s :: rest) =
        (invalidMsg :: (sessionLoop rest).1, (sessionLoop rest).2)) ∧
    sessionLoop [ReadResult.line "3"] =
      ([openingMsg ⟨3, "Zenn", "zenn.dev/hitto"⟩, promptMsg], ExitCause.disconnect) ∧
    sessionLoop [ReadResult.line "0"] = ([invalidMsg], ExitCause.disconnect) ∧
    sessionLoop [ReadResult.line "99"] = ([invalidMsg], ExitCause.disconnect) ∧
    sessionLoop [ReadResult.line "Q"] = ([invalidMsg], ExitCause.disconnect) := by
  refine ⟨?_, ?_, ?_, by decide, by decide, by decide, by decide⟩
  · intro s rest h
    simp [sessionLoop, h]
  · intro s n rest hparse h1 h2
    have hq : s ≠ "q" := by
      intro he
      rw [he] at hparse
      rw [show sscanfD "q" = none from rfl] at hparse
      exact Option.noConfusion hparse
    have hqt : s ≠ "quit" := by
      intro he
      rw [he] at hparse
      rw [show sscanfD "quit" = none from rfl] at hparse
      exact Option.noConfusion hparse
    have hex : s ≠ "exit" := by
      intro he
      rw [he] at hparse
      rw [show sscanfD "exit" = none from rfl] at hparse
      exact Option.noConfusion hparse
    simp [sessionLoop, hq, hqt, hex, hparse, h1, h2]
  · intro s rest hq hqt hex hinv
    cases hp : sscanfD s with
    | none => simp [sessionLoop, hq, hqt, hex, hp]
    | some n =>
      have := hinv n hp
      simp [sessionLoop, hq, hqt, hex, hp, this]

/-- Witness for C6: the quit command and the in-range selection `"3"`. -/
theorem session_command_semantics_witness :
    sessionLoop [ReadResult.line "q"] = ([farewellMsg], ExitCause.quit) ∧
    sessionLoop [ReadResult.line "3"] =
      (openingMsg (contacts.getD (((3 : Int) - 1).toNat) noContact) :: promptMsg ::
        (sessionLoop []).1, (sessionLoop []).2) :=
  ⟨session_command_semantics.1 "q" [] (Or.inl rfl),
   session_command_semantics.2.1 "3" 3 [] rfl (by decide) (by decide)⟩

lemma digit_not_space {c : Char} (h : c.isDigit = true) : isGoSpace c = false := by
  by_contra hs
  have hs2 : isGoSpace c = true := by
    cases hx : isGoSpace c
    · exact absurd hx hs
    · rfl
  have hcases : c = ' ' ∨ c = '\t' ∨ c = '\n' ∨ c = '\x0B' ∨ c = '\x0C' ∨ c = '\r' := by
    simp only [isGoSpace, Bool.or_eq_true, beq_iff_eq] at hs2
    tauto
  rcases hcases with rfl | rfl | rfl | rfl | rfl | rfl <;> exact absurd h (by decide)

lemma digit_not_char {c x : Char} (h : c.isDigit = true) (hx : x.isDigit = false) :
    c ≠ x := by
  intro he
  rw [he, hx] at h
  exact Bool.noConfusion h

/-- C10: the numeric parse accepts partial matches — any line made of
optional leading whitespace, a nonempty run of decimal digits, and an
arbitrary tail that does not start with a digit scans as that number, so
`"3abc"` and `" 3"` both select the Zenn contact instead of being
rejected as invalid. -/
theorem sscanf_leading_integer (w d t : List Char)
    (hw : ∀ c ∈ w, isGoSpace c = true)
    (hd : ∀ c ∈ d, c.isDigit = true)
    (hd0 : d ≠ [])
    (ht : ∀ c ∈ t.take 1, c.isDigit = false) :
    sscanfD (String.mk (w ++ d ++ t)) = some (Int.ofNat (digitsVal d)) ∧
    sessionLoop [ReadResult.line "3abc"] =
      ([openingMsg ⟨3, "Zenn", "zenn.dev/hitto"⟩, promptMsg], ExitCause.disconnect) ∧
    sessionLoop [ReadResult.line " 3"] =
      ([openingMsg ⟨3, "Zenn", "zenn.dev/hitto"⟩, promptMsg], ExitCause.disconnect) := by
  refine ⟨?_, by decide, by decide⟩
  obtain ⟨dh, dt, rfl⟩ := List.exists_cons_of_ne_nil hd0
  have hdh : dh.isDigit = true := hd dh (by simp)
  have hdata : (String.mk (w ++ (dh :: dt) ++ t)).data = w ++ ((dh :: dt) ++ t) := by
    simp [String.mk]
  have hdrop : ((w ++ ((dh :: dt) ++ t)).dropWhile isGoSpace) = dh :: (dt ++ t) := by
    rw [dropWhile_append_all w _ hw]
    simp [List.dropWhile_cons, digit_not_space hdh]
  have htail : (t.takeWhile Char.isDigit) = [] := by
    cases t with
    | nil => rfl
    | cons th tt =>
      have := ht th (by simp)
      simp [List.takeWhile_cons, this]
  have htake : ((dh :: (dt ++ t)).takeWhile Char.isDigit) = dh :: dt := by
    have : dh :: (dt ++ t) = (dh :: dt) ++ t := by simp
    rw [this, takeWhile_append_all (dh :: dt) t hd, htail, List.append_nil]
  have hminus : ¬ (dh = '-') := digit_not_char hdh (by decide)
  have hplus : ¬ (dh = '+') := digit_not_char hdh (by decide)
  rw [sscanfD, hdata, hdrop]
  simp only [sscanfDAux, hminus, hplus, if_false, readDigits, htake]
  simp

/-- Witness for C10: whitespace, the digit `3`, then a letter. -/
theorem sscanf_leading_integer_witness :
    sscanfD (String.mk ([' '] ++ ['3'] ++ ['a'])) =
      some (Int.ofNat (digitsVal ['3'])) ∧
    sessionLoop [ReadResult.line "3abc"] =
      ([openingMsg ⟨3, "Zenn", "zenn.dev/hitto"⟩, promptMsg], ExitCause.disconnect) :=
  ⟨(sscanf_leading_integer [' '] ['3'] ['a'] (by decide) (by decide) (by decide)
      (by decide)).1,
   (sscanf_leading_integer [' '] ['3'] ['a'] (by decide) (by decide) (by decide)
      (by decide)).2.1⟩

end ContactServer
